import Mathlib

/-!
Shallow embedding of the Dexter HTTP gateway's model-fallback orchestration
and event-aggregation layer (the server module that builds a model chain from
request input and environment configuration, drives one agent run per model,
reduces the run's event stream into a result, and falls back across models on
failure), together with its HTTP routing surface.

JavaScript dynamic values that the handler inspects for truthiness are
embedded as `JVal`; the agent is a black box embedded as a function from
(query, model, maxIterations) to a finite event stream that either ends
normally or raises with a message.
-/

namespace Dexter

/-- A JavaScript value, as far as the handler's truthiness checks and the
opaque payloads (query, tool arguments) require. -/
inductive JVal where
  | str (s : String)
  | num (n : Int)
  | bool (b : Bool)
  | null
deriving DecidableEq

/-- JavaScript truthiness of an embedded value: empty string, zero, `false`
and `null` are falsy. -/
def JVal.truthy : JVal → Bool
  | .str s => !s.isEmpty
  | .num n => n != 0
  | .bool b => b
  | .null => false

/-- JS `a || b` for an optional string: `undefined` and `""` fall through. -/
def jsOrStr (a : Option String) (b : String) : String :=
  match a with
  | none => b
  | some s => if s.isEmpty then b else s

/-- JS `a || b` for an optional number: `undefined` and `0` fall through. -/
def jsOrInt (a : Option Int) (b : Int) : Int :=
  match a with
  | none => b
  | some n => if n = 0 then b else n

/-- JS `s.split(',')` character by character: cut the accumulated segment at
every comma; the pieces before, between and after commas are kept, so the
result is always non-empty and `''.split(',') = ['']`. -/
def splitCommaAux (acc : List Char) : List Char → List String
  | [] => [⟨acc.reverse⟩]
  | c :: cs =>
      if c = ',' then (⟨acc.reverse⟩ : String) :: splitCommaAux [] cs
      else splitCommaAux (c :: acc) cs

/-- JS `s.split(',')`. -/
def jsSplitComma (s : String) : List String :=
  splitCommaAux [] s.data

/-- JS `s.trim()`: drop whitespace from both ends. -/
def jsTrim (s : String) : String :=
  ⟨((s.data.dropWhile Char.isWhitespace).reverse.dropWhile
      Char.isWhitespace).reverse⟩

/-- `(env || '').split(',').map(m => m.trim()).filter(Boolean)`: the
configured fallback list, split on commas, entries trimmed, empties
discarded. -/
def parseFallbacks (envFallbacks : Option String) : List String :=
  ((jsSplitComma (jsOrStr envFallbacks "")).map jsTrim).filter
    (fun m => m != "")

/-- The deduplicating loop of `getModelChain`: append each fallback to the
growing chain unless it is already present. -/
def addFallbacks (chain : List String) : List String → List String
  | [] => chain
  | fb :: rest =>
      if fb ∈ chain then addFallbacks chain rest
      else addFallbacks (chain ++ [fb]) rest

/-- `getModelChain(requestModel?)`: primary = request override, else the
`DEXTER_MODEL` environment default, else the literal `gpt-5.2`; then the
parsed fallbacks, deduplicated against the growing chain. -/
def getModelChain (requestModel envModel envFallbacks : Option String) :
    List String :=
  let primary := jsOrStr requestModel (jsOrStr envModel "gpt-5.2")
  let fallbacks := parseFallbacks envFallbacks
  addFallbacks [primary] fallbacks

/-- An event of the agent's run stream, as consumed by the gateway:
`tool_end` and `done` are inspected, every other shape passes through
unexamined (embedded by its type tag). -/
inductive Event where
  | tool_end (tool : String) (args : List (String × JVal))
      (duration : Option Int)
  | done (answer : String) (iterations : Int) (totalTime : Int)
  | other (tag : String)
deriving DecidableEq

/-- One record of `toolCalls`, pushed on each `tool_end` event. -/
structure ToolCall where
  tool : String
  args : List (String × JVal)
  duration : Option Int
deriving DecidableEq

/-- The aggregate `runAgent` builds from a stream: `answer`, `toolCalls`,
`iterations`, `totalTime` (the route later adds the model name). -/
structure RunResult where
  answer : String
  toolCalls : List ToolCall
  iterations : Int
  totalTime : Int
deriving DecidableEq

/-- One attempt's event stream: a finite sequence of events that afterwards
either ends normally or raises an error with a message. -/
inductive StreamResult where
  | ends (events : List Event)
  | raises (events : List Event) (msg : String)
deriving DecidableEq

/-- The black-box agent: from (query, model, maxIterations), the stream
`Agent.create({model, maxIterations}).run(query)` produces. -/
abbrev AgentRun := JVal → String → Int → StreamResult

/-- The body of `runAgent`'s `for await` loop: a `tool_end` event appends one
record to `toolCalls`, a `done` event overwrites `answer`, `iterations` and
`totalTime`, anything else is skipped. -/
def stepEvent (r : RunResult) : Event → RunResult
  | .tool_end t a d => { r with toolCalls := r.toolCalls ++ [⟨t, a, d⟩] }
  | .done a i t => { r with answer := a, iterations := i, totalTime := t }
  | .other _ => r

/-- Folding `runAgent`'s loop over a fully yielded event list, starting from
`answer = ''`, `toolCalls = []`, `iterations = 0`, `totalTime = 0`. -/
def reduceEvents (events : List Event) : RunResult :=
  events.foldl stepEvent ⟨"", [], 0, 0⟩

/-- `runAgent(query, model, maxIterations)`: consume the stream; if it ends
normally return the accumulated result, if it raises propagate the error. -/
def runAgent (agentRun : AgentRun) (query : JVal) (model : String)
    (maxIterations : Int) : Except String RunResult :=
  match agentRun query model maxIterations with
  | .ends events => .ok (reduceEvents events)
  | .raises _ msg => .error msg

/-- Outcome of the research route's fallback loop: first success with the
failures recorded so far, or exhaustion with every failure recorded. -/
inductive OrchOutcome where
  | success (result : RunResult) (model : String) (failures : List String)
  | allFailed (failures : List String)
deriving DecidableEq

/-- The `for (const model of models)` loop of the research route: try each
model in order; return on the first success, otherwise push
`` `${model}: ${msg}` `` and continue. -/
def loopModels (agentRun : AgentRun) (query : JVal) (maxIterations : Int) :
    List String → List String → OrchOutcome
  | [], errs => .allFailed errs
  | model :: rest, errs =>
      match runAgent agentRun query model maxIterations with
      | .ok r => .success r model errs
      | .error msg =>
          loopModels agentRun query maxIterations rest
            (errs ++ [model ++ ": " ++ msg])

/-- A parsed `POST /api/research` body
`{query?, model?, maxIterations?}`. -/
structure ResearchBody where
  query : Option JVal
  model : Option String
  maxIterations : Option Int
deriving DecidableEq

/-- An inbound request as the handler inspects it: method, path, and the
result of `req.json()` (which may raise on a malformed body). -/
structure Request where
  method : String
  path : String
  body : Except String ResearchBody

/-- A response of the gateway, by route outcome (CORS headers elided). -/
inductive Response where
  | noContent
  | health (status : String) (primaryModel : Option String)
      (fallbackModels : List String)
  | badRequest
  | ok (result : RunResult) (model : String)
  | serverError (msg : String)
  | notFound
deriving DecidableEq

/-- HTTP status code of each response shape. -/
def Response.statusCode : Response → Nat
  | .noContent => 204
  | .health _ _ _ => 200
  | .badRequest => 400
  | .ok _ _ => 200
  | .serverError _ => 500
  | .notFound => 404

/-- The `error` field of the response body, when present. -/
def Response.errorField : Response → Option String
  | .badRequest => some "Missing required field: query"
  | .serverError m => some m
  | .notFound => some "Not found"
  | _ => none

/-- The research route past body parsing: reject a falsy `query` with 400,
otherwise build the chain, default `maxIterations` to 10 and run the
fallback loop; on exhaustion answer 500 with every failure joined. -/
def researchHandler (agentRun : AgentRun)
    (envModel envFallbacks : Option String) (body : ResearchBody) :
    Response :=
  match body.query with
  | none => .badRequest
  | some q =>
      if q.truthy then
        let models := getModelChain body.model envModel envFallbacks
        let maxIterations := jsOrInt body.maxIterations 10
        match loopModels agentRun q maxIterations models [] with
        | .success r model _ => .ok r model
        | .allFailed errs =>
            .serverError
              ("All models failed. " ++ String.intercalate " | " errs)
      else .badRequest

/-- The server's `fetch` dispatcher: OPTIONS preflight, health route,
research route (a body-parse error is caught as a 500), else 404. -/
def fetchHandler (agentRun : AgentRun)
    (envModel envFallbacks : Option String) (req : Request) : Response :=
  if req.method = "OPTIONS" then .noContent
  else if req.path = "/api/health" ∧ req.method = "GET" then
    let models := getModelChain none envModel envFallbacks
    .health "ok" models.head? (models.drop 1)
  else if req.path = "/api/research" ∧ req.method = "POST" then
    match req.body with
    | .ok body => researchHandler agentRun envModel envFallbacks body
    | .error msg => .serverError msg
  else .notFound

/-! ### Chain builder lemmas -/

lemma addFallbacks_eq_append (l : List String) :
    ∀ chain, ∃ extra,
      addFallbacks chain l = chain ++ extra ∧ extra.Sublist l := by
  induction l with
  | nil => intro chain; exact ⟨[], by simp [addFallbacks], List.Sublist.refl _⟩
  | cons fb rest ih =>
      intro chain
      by_cases h : fb ∈ chain
      · obtain ⟨extra, heq, hsub⟩ := ih chain
        exact ⟨extra, by simp [addFallbacks, h, heq], hsub.cons fb⟩
      · obtain ⟨extra, heq, hsub⟩ := ih (chain ++ [fb])
        refine ⟨fb :: extra, ?_, hsub.cons₂ fb⟩
        simp [addFallbacks, h, heq]

lemma addFallbacks_mem (l : List String) :
    ∀ chain x, x ∈ addFallbacks chain l ↔ x ∈ chain ∨ x ∈ l := by
  induction l with
  | nil => intro chain x; simp [addFallbacks]
  | cons fb rest ih =>
      intro chain x
      by_cases h : fb ∈ chain
      · rw [show addFallbacks chain (fb :: rest) = addFallbacks chain rest
          from by simp [addFallbacks, h], ih]
        constructor
        · rintro (hc | hr)
          · exact Or.inl hc
          · exact Or.inr (List.mem_cons_of_mem _ hr)
        · rintro (hc | hr)
          · exact Or.inl hc
          · rcases List.mem_cons.mp hr with he | hr
            · exact Or.inl (he ▸ h)
            · exact Or.inr hr
      · rw [show addFallbacks chain (fb :: rest) =
            addFallbacks (chain ++ [fb]) rest
          from by simp [addFallbacks, h], ih]
        simp [List.mem_append]
        tauto

lemma addFallbacks_nodup (l : List String) :
    ∀ chain, chain.Nodup → (addFallbacks chain l).Nodup := by
  induction l with
  | nil => intro chain hc; simpa [addFallbacks] using hc
  | cons fb rest ih =>
      intro chain hc
      by_cases h : fb ∈ chain
      · rw [show addFallbacks chain (fb :: rest) = addFallbacks chain rest
          from by simp [addFallbacks, h]]
        exact ih chain hc
      · rw [show addFallbacks chain (fb :: rest) =
            addFallbacks (chain ++ [fb]) rest
          from by simp [addFallbacks, h]]
        exact ih (chain ++ [fb]) (by simp [List.nodup_append, hc, h])

lemma getModelChain_eq_append (m d f : Option String) :
    ∃ extra,
      getModelChain m d f = jsOrStr m (jsOrStr d "gpt-5.2") :: extra ∧
        extra.Sublist (parseFallbacks f) := by
  obtain ⟨extra, heq, hsub⟩ :=
    addFallbacks_eq_append (parseFallbacks f) [jsOrStr m (jsOrStr d "gpt-5.2")]
  exact ⟨extra, by simpa [getModelChain] using heq, hsub⟩

/-- **C2.** `getModelChain` starts with the request override when present and
non-empty, else the configured default when present and non-empty, else the
literal `gpt-5.2`; the rest of the chain is an order-preserving subsequence
of the trimmed, non-empty fallback entries; a string is in the chain exactly
when it is the primary or one of those entries; every fallback entry is
non-empty; and the chain never repeats an identifier. -/
theorem getModelChain_spec (m d f : Option String) :
    (getModelChain m d f).head? =
        some (match m with
          | some s =>
              if s.isEmpty then
                match d with
                | some t => if t.isEmpty then "gpt-5.2" else t
                | none => "gpt-5.2"
              else s
          | none =>
              match d with
              | some t => if t.isEmpty then "gpt-5.2" else t
              | none => "gpt-5.2") ∧
      (getModelChain m d f).tail.Sublist (parseFallbacks f) ∧
      (∀ x, x ∈ getModelChain m d f ↔
        x = jsOrStr m (jsOrStr d "gpt-5.2") ∨ x ∈ parseFallbacks f) ∧
      (∀ x ∈ parseFallbacks f, x ≠ "") ∧
      (getModelChain m d f).Nodup := by
  obtain ⟨extra, heq, hsub⟩ := getModelChain_eq_append m d f
  refine ⟨?_, ?_, ?_, ?_, ?_⟩
  · rw [heq]
    cases m with
    | none => cases d with
      | none => rfl
      | some t => simp [jsOrStr]
    | some s => cases d with
      | none => simp [jsOrStr]
      | some t => by_cases hs : s.isEmpty <;> simp [jsOrStr, hs]
  · rw [heq]; exact hsub
  · intro x
    rw [show getModelChain m d f =
        addFallbacks [jsOrStr m (jsOrStr d "gpt-5.2")] (parseFallbacks f)
      from rfl, addFallbacks_mem]
    simp
  · intro x hx
    have := (List.mem_filter.mp hx).2
    simpa using this
  · exact addFallbacks_nodup (parseFallbacks f) _ (by simp)

/-- Witness for C2 at a concrete configuration: override `x`, no default,
fallback list `" a , x ,, b "`. -/
theorem getModelChain_spec_witness :
    "b" ∈ getModelChain (some "x") none (some " a , x ,, b ") :=
  (getModelChain_spec (some "x") none (some " a , x ,, b ")).2.2.1 "b"
    |>.mpr (Or.inr (by decide))

/-- **C3.** For every request override and environment configuration, the
model chain is non-empty and repeats no identifier. -/
theorem getModelChain_nonempty_nodup (m d f : Option String) :
    getModelChain m d f ≠ [] ∧ (getModelChain m d f).Nodup := by
  obtain ⟨extra, heq, _⟩ := getModelChain_eq_append m d f
  exact ⟨by simp [heq], addFallbacks_nodup (parseFallbacks f) _ (by simp)⟩

/-! ### Event reduction lemmas -/

/-- The `ToolCallRecord`s a stream's events give rise to, in arrival
order. -/
def toolRecordsOf (events : List Event) : List ToolCall :=
  events.filterMap fun e =>
    match e with
    | .tool_end t a d => some ⟨t, a, d⟩
    | _ => none

/-- The fields of the last `done` event of a stream, when one exists. -/
def lastDone : List Event → Option (String × Int × Int)
  | [] => none
  | e :: rest =>
      match lastDone rest with
      | some x => some x
      | none =>
          match e with
          | .done a i t => some (a, i, t)
          | _ => none

/-- Whether a stream ever emits a `done` event. -/
def hasDone (events : List Event) : Bool :=
  events.any fun e =>
    match e with
    | .done _ _ _ => true
    | _ => false

lemma foldl_stepEvent (events : List Event) :
    ∀ r, events.foldl stepEvent r =
      ⟨(match lastDone events with | some x => x.1 | none => r.answer),
        r.toolCalls ++ toolRecordsOf events,
        (match lastDone events with | some x => x.2.1 | none => r.iterations),
        (match lastDone events with | some x => x.2.2 | none => r.totalTime)⟩
    := by
  induction events with
  | nil => intro r; simp [lastDone, toolRecordsOf]
  | cons e rest ih =>
      intro r
      rw [List.foldl_cons, ih (stepEvent r e)]
      cases e with
      | tool_end t a d =>
          cases hld : lastDone rest <;>
            simp [lastDone, stepEvent, toolRecordsOf, hld]
      | done a i t =>
          cases hld : lastDone rest <;>
            simp [lastDone, stepEvent, toolRecordsOf, hld]
      | other tag =>
          cases hld : lastDone rest <;>
            simp [lastDone, stepEvent, toolRecordsOf, hld]

lemma lastDone_eq_none_of_not_hasDone (events : List Event)
    (h : hasDone events = false) : lastDone events = none := by
  induction events with
  | nil => rfl
  | cons e rest ih =>
      have hrest : hasDone rest = false := by
        cases e <;> simp [hasDone] at h ⊢ <;> exact h
      cases e with
      | tool_end t a d => simp [lastDone, ih hrest]
      | done a i t => simp [hasDone] at h
      | other tag => simp [lastDone, ih hrest]

/-! ### Orchestration lemmas -/

lemma loopModels_all_error (agentRun : AgentRun) (q : JVal) (mi : Int)
    (f : String → String) :
    ∀ models errs,
      (∀ p ∈ models, runAgent agentRun q p mi = .error (f p)) →
      loopModels agentRun q mi models errs =
        .allFailed (errs ++ models.map fun p => p ++ ": " ++ f p) := by
  intro models
  induction models with
  | nil => intro errs _; simp [loopModels]
  | cons model rest ih =>
      intro errs h
      have hm := h model (List.mem_cons_self _ _)
      rw [show loopModels agentRun q mi (model :: rest) errs =
          loopModels agentRun q mi rest (errs ++ [model ++ ": " ++ f model])
        from by simp [loopModels, hm]]
      rw [ih _ (fun p hp => h p (List.mem_cons_of_mem _ hp))]
      simp

lemma loopModels_first_success (agentRun : AgentRun) (q : JVal) (mi : Int)
    (f : String → String) (m : String) (r : RunResult) (rest : List String) :
    ∀ pre errs,
      (∀ p ∈ pre, runAgent agentRun q p mi = .error (f p)) →
      runAgent agentRun q m mi = .ok r →
      loopModels agentRun q mi (pre ++ m :: rest) errs =
        .success r m (errs ++ pre.map fun p => p ++ ": " ++ f p) := by
  intro pre
  induction pre with
  | nil => intro errs _ hm; simp [loopModels, hm]
  | cons p0 pres ih =>
      intro errs h hm
      have hp0 := h p0 (List.mem_cons_self _ _)
      rw [show loopModels agentRun q mi ((p0 :: pres) ++ m :: rest) errs =
          loopModels agentRun q mi (pres ++ m :: rest)
            (errs ++ [p0 ++ ": " ++ f p0])
        from by simp [loopModels, hp0]]
      rw [ih _ (fun p hp => h p (List.mem_cons_of_mem _ hp)) hm]
      simp

/-- **C4.** The orchestrator tries the chain strictly in order: if every
model of a prefix `pre` fails and the next model `m` succeeds with result
`r`, the loop returns `r` annotated with `m` and the recorded failures are
exactly one `model: message` entry per element of `pre`, in order — and the
outcome is the same for any agent behaviour on the models after `m`, since
no attempt is started for them. -/
theorem loopModels_stops_at_first_success
    (agentRun agentRun' : AgentRun) (q : JVal) (mi : Int)
    (f : String → String) (m : String) (r : RunResult)
    (pre rest : List String)
    (hpre : ∀ p ∈ pre, runAgent agentRun q p mi = .error (f p))
    (hm : runAgent agentRun q m mi = .ok r)
    (hagree : ∀ p ∈ pre, agentRun' q p mi = agentRun q p mi)
    (hm' : agentRun' q m mi = agentRun q m mi) :
    loopModels agentRun' q mi (pre ++ m :: rest) [] =
      .success r m (pre.map fun p => p ++ ": " ++ f p) := by
  have hpre' : ∀ p ∈ pre, runAgent agentRun' q p mi = .error (f p) := by
    intro p hp
    rw [runAgent, hagree p hp, ← runAgent, hpre p hp]
  have hm2 : runAgent agentRun' q m mi = .ok r := by
    rw [runAgent, hm', ← runAgent, hm]
  simpa using
    loopModels_first_success agentRun' q mi f m r rest pre [] hpre' hm2

/-- A concrete black-box agent for the chain `[A, B, C]`: `A` and `B`
raise, `C` completes with a `done` event. -/
def agentABC : AgentRun := fun _ m _ =>
  if m = "C" then .ends [.done "answer from C" 3 120]
  else .raises [] ("backend error for " ++ m)

/-- Witness for C4 on the chain `[A, B, C]` of the claim: the loop returns
the result tagged `C` with exactly the two failures for `A` then `B`. -/
theorem loopModels_stops_at_first_success_witness :
    loopModels agentABC (.str "q") 10 ["A", "B", "C"] [] =
      .success ⟨"answer from C", [], 3, 120⟩ "C"
        ["A: backend error for A", "B: backend error for B"] := by
  have h := loopModels_stops_at_first_success agentABC agentABC (.str "q") 10
    (fun p => "backend error for " ++ p) "C" ⟨"answer from C", [], 3, 120⟩
    ["A", "B"] []
    (by intro p hp; simp at hp; rcases hp with rfl | rfl <;> rfl) rfl
    (fun p _ => rfl) rfl
  simpa using h

/-- **C5.** When every model of the chain fails, the research route answers
500 with `All models failed. ` followed by the `model: message` pairs in
attempt order joined by ` | `, and the number of recorded failures equals
the chain length. -/
theorem research_all_models_failed (agentRun : AgentRun)
    (em ef mo : Option String) (mi : Option Int) (q : JVal)
    (f : String → String) (hq : q.truthy = true)
    (hfail : ∀ p ∈ getModelChain mo em ef,
      runAgent agentRun q p (jsOrInt mi 10) = .error (f p)) :
    fetchHandler agentRun em ef ⟨"POST", "/api/research", .ok ⟨some q, mo, mi⟩⟩
        = .serverError ("All models failed. " ++ String.intercalate " | "
            ((getModelChain mo em ef).map fun p => p ++ ": " ++ f p)) ∧
      (fetchHandler agentRun em ef
        ⟨"POST", "/api/research", .ok ⟨some q, mo, mi⟩⟩).statusCode = 500 ∧
      ((getModelChain mo em ef).map fun p => p ++ ": " ++ f p).length =
        (getModelChain mo em ef).length := by
  have h1 : fetchHandler agentRun em ef
      ⟨"POST", "/api/research", .ok ⟨some q, mo, mi⟩⟩ =
      (if q.truthy then
        match loopModels agentRun q (jsOrInt mi 10)
            (getModelChain mo em ef) [] with
        | .success r model _ => Response.ok r model
        | .allFailed errs =>
            .serverError ("All models failed. " ++ String.intercalate " | " errs)
      else Response.badRequest) := rfl
  have h2 := loopModels_all_error agentRun q (jsOrInt mi 10) f
    (getModelChain mo em ef) [] hfail
  rw [h1, if_pos (by simp [hq]), h2]
  simp [Response.statusCode]

/-- **C6.** A research request whose body has no `query` field is answered
400 with error `Missing required field: query`, and the response does not
depend on the agent at all — no run is started. -/
theorem research_missing_query (agentRun agentRun' : AgentRun)
    (em ef mo : Option String) (mi : Option Int) :
    fetchHandler agentRun em ef
        ⟨"POST", "/api/research", .ok ⟨none, mo, mi⟩⟩ = .badRequest ∧
      (fetchHandler agentRun em ef
        ⟨"POST", "/api/research", .ok ⟨none, mo, mi⟩⟩).statusCode = 400 ∧
      (fetchHandler agentRun em ef
        ⟨"POST", "/api/research", .ok ⟨none, mo, mi⟩⟩).errorField =
          some "Missing required field: query" ∧
      fetchHandler agentRun em ef
          ⟨"POST", "/api/research", .ok ⟨none, mo, mi⟩⟩ =
        fetchHandler agentRun' em ef
          ⟨"POST", "/api/research", .ok ⟨none, mo, mi⟩⟩ :=
  ⟨rfl, rfl, rfl, rfl⟩

/-- A concrete black-box agent whose every attempt raises. -/
def agentDown : AgentRun := fun _ _ _ => .raises [] "backend down"

/-- Witness for C5: default model `gpt-5.2` with fallback `B`, both
raising. -/
theorem research_all_models_failed_witness :
    fetchHandler agentDown none (some "B")
        ⟨"POST", "/api/research", .ok ⟨some (.str "x"), none, none⟩⟩ =
      .serverError
        "All models failed. gpt-5.2: backend down | B: backend down" := by
  have h := research_all_models_failed agentDown none (some "B") none none
    (.str "x") (fun _ => "backend down") rfl (fun p _ => rfl)
  exact h.1.trans (by decide)

/-- **C7.** The event reduction of `runAgent`: `toolCalls` is exactly one
record per `tool_end` event in arrival order, the answer, iteration count
and total time come from the (last) `done` event with zeroed defaults,
every other event kind leaves the accumulator unchanged; three `tool_end`
events followed by one `done` reduce to a three-record result with the
`done` fields, and a stream without `tool_end` events is tolerated. -/
theorem reduceEvents_spec :
    (∀ events, reduceEvents events =
      ⟨(match lastDone events with | some x => x.1 | none => ""),
        toolRecordsOf events,
        (match lastDone events with | some x => x.2.1 | none => 0),
        (match lastDone events with | some x => x.2.2 | none => 0)⟩) ∧
      (∀ r tag, stepEvent r (.other tag) = r) ∧
      reduceEvents [.tool_end "a" [] (some 1), .tool_end "b" [] none,
          .tool_end "c" [] (some 3), .done "ans" 4 250] =
        ⟨"ans", [⟨"a", [], some 1⟩, ⟨"b", [], none⟩, ⟨"c", [], some 3⟩],
          4, 250⟩ ∧
      reduceEvents [.done "direct" 1 50] = ⟨"direct", [], 1, 50⟩ := by
  refine ⟨?_, fun r tag => rfl, rfl, rfl⟩
  intro events
  have h := foldl_stepEvent events ⟨"", [], 0, 0⟩
  simpa [reduceEvents] using h

/-- A concrete black-box agent for refuting C1: model `A`'s stream ends
after one `tool_end` without a `done` event; model `B` would succeed. -/
def agentNoDone : AgentRun := fun _ m _ =>
  if m = "A" then .ends [.tool_end "search" [] (some 5)]
  else .ends [.done "answer from B" 2 100]

/-- **C1, counterexample.** On the chain `[A, B]` where `A`'s stream ends
without ever emitting `done` (it emits one `tool_end`), `runAgent` returns
a success result (`Except.ok`, with empty answer and zeroed counters), and
the orchestration loop returns that result tagged `A` with no recorded
failure — it does not treat the attempt as a failure and never advances to
`B`. -/
theorem stream_without_done_counterexample :
    runAgent agentNoDone (.str "q") "A" 10 =
        .ok ⟨"", [⟨"search", [], some 5⟩], 0, 0⟩ ∧
      loopModels agentNoDone (.str "q") 10 ["A", "B"] [] =
        .success ⟨"", [⟨"search", [], some 5⟩], 0, 0⟩ "A" [] :=
  ⟨rfl, rfl⟩

/-- **C1, amended.** If a model's event stream ends normally without ever
emitting `done`, `runAgent` nevertheless returns a success result — answer
`''`, iterations `0`, total time `0`, with the accumulated `tool_end`
records — and the orchestration loop returns it immediately without
advancing to the next model; only a stream that raises is treated as a
failed attempt that advances the loop. -/
theorem stream_without_done_is_success (agentRun : AgentRun) (q : JVal)
    (mi : Int) (m : String) (rest : List String) (events : List Event)
    (hnd : hasDone events = false) :
    (agentRun q m mi = .ends events →
      runAgent agentRun q m mi = .ok ⟨"", toolRecordsOf events, 0, 0⟩ ∧
        loopModels agentRun q mi (m :: rest) [] =
          .success ⟨"", toolRecordsOf events, 0, 0⟩ m []) ∧
      (∀ msg, agentRun q m mi = .raises events msg →
        loopModels agentRun q mi (m :: rest) [] =
          loopModels agentRun q mi rest [m ++ ": " ++ msg]) := by
  have hred : reduceEvents events = ⟨"", toolRecordsOf events, 0, 0⟩ := by
    have h := foldl_stepEvent events ⟨"", [], 0, 0⟩
    simpa [reduceEvents, lastDone_eq_none_of_not_hasDone events hnd] using h
  constructor
  · intro hends
    have hra : runAgent agentRun q m mi =
        .ok ⟨"", toolRecordsOf events, 0, 0⟩ := by
      rw [runAgent, hends]; simp [hred]
    exact ⟨hra, by simp [loopModels, hra]⟩
  · intro msg hraises
    have hra : runAgent agentRun q m mi = .error msg := by
      rw [runAgent, hraises]
    simp [loopModels, hra]

/-- Witness for the amended C1 at the concrete agent of the
counterexample. -/
theorem stream_without_done_is_success_witness :
    loopModels agentNoDone (.str "q") 10 ["A", "B"] [] =
      .success ⟨"", toolRecordsOf [.tool_end "search" [] (some 5)], 0, 0⟩
        "A" [] :=
  ((stream_without_done_is_success agentNoDone (.str "q") 10 "A" ["B"]
    [.tool_end "search" [] (some 5)] rfl).1 rfl).2

/-- **C8.** The health route answers 200 with status `ok`, the first
element of the configuration-derived chain as `primaryModel` (the chain is
non-empty, so this element exists) and the rest as `fallbackModels`; the
response does not depend on the agent or the request body — no run is
started. -/
theorem health_route (agentRun agentRun' : AgentRun)
    (em ef : Option String) (b b' : Except String ResearchBody) :
    fetchHandler agentRun em ef ⟨"GET", "/api/health", b⟩ =
        .health "ok" (getModelChain none em ef).head?
          ((getModelChain none em ef).drop 1) ∧
      (fetchHandler agentRun em ef ⟨"GET", "/api/health", b⟩).statusCode =
        200 ∧
      (∃ p, (getModelChain none em ef).head? = some p) ∧
      fetchHandler agentRun em ef ⟨"GET", "/api/health", b⟩ =
        fetchHandler agentRun' em ef ⟨"GET", "/api/health", b'⟩ := by
  refine ⟨rfl, rfl, ?_, rfl⟩
  obtain ⟨extra, heq, _⟩ := getModelChain_eq_append none em ef
  exact ⟨_, by rw [heq]; rfl⟩

/-- **C9.** The research route's presence check on `query` is a JavaScript
falsiness check: a body whose `query` is the empty string, or `0`, is
answered exactly like a body with no `query` at all — 400 with the
missing-field error — and so is any falsy `query` value. -/
theorem research_falsy_query (agentRun : AgentRun)
    (em ef mo : Option String) (mi : Option Int) :
    fetchHandler agentRun em ef
          ⟨"POST", "/api/research", .ok ⟨some (.str ""), mo, mi⟩⟩ =
        fetchHandler agentRun em ef
          ⟨"POST", "/api/research", .ok ⟨none, mo, mi⟩⟩ ∧
      fetchHandler agentRun em ef
          ⟨"POST", "/api/research", .ok ⟨some (.num 0), mo, mi⟩⟩ =
        fetchHandler agentRun em ef
          ⟨"POST", "/api/research", .ok ⟨none, mo, mi⟩⟩ ∧
      fetchHandler agentRun em ef
          ⟨"POST", "/api/research", .ok ⟨none, mo, mi⟩⟩ = .badRequest ∧
      (∀ v : JVal, v.truthy = false →
        fetchHandler agentRun em ef
          ⟨"POST", "/api/research", .ok ⟨some v, mo, mi⟩⟩ = .badRequest) := by
  refine ⟨rfl, rfl, rfl, ?_⟩
  intro v hv
  have h1 : fetchHandler agentRun em ef
      ⟨"POST", "/api/research", .ok ⟨some v, mo, mi⟩⟩ =
      (if v.truthy then
        match loopModels agentRun v (jsOrInt mi 10)
            (getModelChain mo em ef) [] with
        | .success r model _ => Response.ok r model
        | .allFailed errs =>
            .serverError ("All models failed. " ++ String.intercalate " | " errs)
      else Response.badRequest) := rfl
  rw [h1, if_neg (by simp [hv])]

/-- Witness for C9 at the falsy value `null`. -/
theorem research_falsy_query_witness :
    fetchHandler agentDown none none
      ⟨"POST", "/api/research", .ok ⟨some JVal.null, none, none⟩⟩ =
        .badRequest :=
  (research_falsy_query agentDown none none none none).2.2.2 JVal.null rfl

/-- **C10.** When `maxIterations` is absent or `0`, the research request is
served exactly as if `maxIterations` were `10` (the `|| 10` default), so
every agent run of the request gets an iteration budget of exactly 10; and
no request body can select a zero budget. -/
theorem research_default_max_iterations (agentRun : AgentRun)
    (em ef mo : Option String) (q : JVal) (mi : Option Int)
    (hmi : mi = none ∨ mi = some 0) :
    fetchHandler agentRun em ef
          ⟨"POST", "/api/research", .ok ⟨some q, mo, mi⟩⟩ =
        fetchHandler agentRun em ef
          ⟨"POST", "/api/research", .ok ⟨some q, mo, some 10⟩⟩ ∧
      jsOrInt mi 10 = 10 ∧
      (∀ n : Option Int, jsOrInt n 10 ≠ 0) := by
  have hj : jsOrInt mi 10 = 10 := by
    rcases hmi with rfl | rfl <;> simp [jsOrInt]
  refine ⟨?_, hj, ?_⟩
  · have h1 : fetchHandler agentRun em ef
        ⟨"POST", "/api/research", .ok ⟨some q, mo, mi⟩⟩ =
        (if q.truthy then
          match loopModels agentRun q (jsOrInt mi 10)
              (getModelChain mo em ef) [] with
          | .success r model _ => Response.ok r model
          | .allFailed errs =>
              .serverError
                ("All models failed. " ++ String.intercalate " | " errs)
        else Response.badRequest) := rfl
    have h2 : fetchHandler agentRun em ef
        ⟨"POST", "/api/research", .ok ⟨some q, mo, some 10⟩⟩ =
        (if q.truthy then
          match loopModels agentRun q (jsOrInt (some 10) 10)
              (getModelChain mo em ef) [] with
          | .success r model _ => Response.ok r model
          | .allFailed errs =>
              .serverError
                ("All models failed. " ++ String.intercalate " | " errs)
        else Response.badRequest) := rfl
    rw [h1, h2, hj, show jsOrInt (some 10) 10 = 10 from by decide]
  · intro n
    cases n with
    | none => simp [jsOrInt]
    | some k => by_cases hk : k = 0 <;> simp [jsOrInt, hk]

/-- Witness for C10: an absent `maxIterations` is served like an explicit
`10`. -/
theorem research_default_max_iterations_witness :
    fetchHandler agentDown none none
        ⟨"POST", "/api/research", .ok ⟨some (.str "x"), none, none⟩⟩ =
      fetchHandler agentDown none none
        ⟨"POST", "/api/research", .ok ⟨some (.str "x"), none, some 10⟩⟩ :=
  (research_default_max_iterations agentDown none none none (.str "x") none
    (Or.inl rfl)).1

end Dexter
